import Mathlib

/-!
Shallow embedding of src/lambda_function.py (the processNewBook Lambda).

The Python module is embedded as executable Lean definitions:

* String helpers mirror the Python primitives used by the source
  (str.split, str.lower, os.path.basename, os.path.splitext, slicing).
* The UTF-8 codec models bytes.decode("utf-8") in strict mode.
* External collaborators (S3 get, pypdf page extraction, the Bedrock
  call, json.loads on the model text) are fields of an `Env` record:
  they are opaque library/network services from the point of view of
  the module under verification.
* Stateful writes (DynamoDB put_item, S3 put_object) are modelled as an
  ordered event trace plus a store state obtained by replaying the
  trace; the trace order is exactly the order of the calls in the
  source.
-/

namespace ProcessNewBook

/-! ### Python string primitives -/

/-- Python str.split(c): split on every occurrence of a single
character, keeping empty segments (never returns an empty list). -/
def splitOnChar (c : Char) (cs : List Char) : List (List Char) :=
  cs.foldr
    (fun x acc =>
      if x = c then [] :: acc
      else
        match acc with
        | h :: t => (x :: h) :: t
        | [] => [[x]])
    [[]]

/-- Python str.lower() applied characterwise (basic latin letters). -/
def pyLowerData (cs : List Char) : List Char := cs.map Char.toLower

/-- Python os.path.basename: the part after the last slash. -/
def pyBasename (s : String) : String :=
  ⟨(splitOnChar '/' s.data).getLastD []⟩

/-- Python os.path.splitext(s)[0]: drop the extension at the last dot,
provided some character before that dot is not itself a dot. -/
def splitextData (cs : List Char) : List Char :=
  match (cs.reverse.findIdx? (· = '.')) with
  | none => cs
  | some k =>
    let di := cs.length - 1 - k
    if (cs.take di).any (· ≠ '.') then cs.take di else cs

/-- book_id = os.path.splitext(os.path.basename(file_key))[0]
(src/lambda_function.py line 314). -/
def book_idOf (key : String) : String := ⟨splitextData (pyBasename key).data⟩

/-- file_ext = key.lower().split(".")[-1] (src/lambda_function.py line 40). -/
def fileExt (key : String) : String :=
  ⟨(splitOnChar '.' (pyLowerData key.data)).getLastD []⟩

/-- Python slicing s[:n] (counts characters, like Lean List.take). -/
def pyTruncate (s : String) (n : Nat) : String := ⟨s.data.take n⟩

/-- Python str.lower() as a whole-string operation. -/
def pyLower (s : String) : String := ⟨pyLowerData s.data⟩

/-! ### UTF-8 codec: model of Python bytes.decode("utf-8") strict mode -/

/-- A unicode scalar value: a codepoint that is not a surrogate. -/
def validScalar (n : Nat) : Prop :=
  n < 0xD800 ∨ (0xDFFF < n ∧ n < 0x110000)

instance (n : Nat) : Decidable (validScalar n) := by
  unfold validScalar; infer_instance

/-- UTF-8 encoding of one scalar value. -/
def utf8EncodeChar (c : Nat) : List Nat :=
  if c < 0x80 then [c]
  else if c < 0x800 then [0xC0 + c / 64, 0x80 + c % 64]
  else if c < 0x10000 then
    [0xE0 + c / 4096, 0x80 + (c / 64) % 64, 0x80 + c % 64]
  else
    [0xF0 + c / 262144, 0x80 + (c / 4096) % 64, 0x80 + (c / 64) % 64,
     0x80 + c % 64]

/-- UTF-8 encoding of a list of scalar values. -/
def utf8Encode (cps : List Nat) : List Nat :=
  (cps.map utf8EncodeChar).flatten

/-- Read n continuation bytes (each in 0x80..0xBF), accumulating the
scalar value; returns the value and the remaining bytes. -/
def readCont : Nat → Nat → List Nat → Option (Nat × List Nat)
  | 0, acc, bs => some (acc, bs)
  | _ + 1, _, [] => none
  | n + 1, acc, b :: bs =>
    if 0x80 ≤ b ∧ b < 0xC0 then readCont n (acc * 64 + (b - 0x80)) bs
    else none

theorem readCont_suffix_length :
    ∀ {n acc : Nat} {bs rest : List Nat} {v : Nat},
      readCont n acc bs = some (v, rest) → rest.length ≤ bs.length
  | 0, _, bs, rest, v, h => by
    rw [readCont] at h
    cases h
    exact Nat.le_refl _
  | n + 1, acc, [], rest, v, h => by
    rw [readCont] at h
    cases h
  | n + 1, acc, b :: bs, rest, v, h => by
    rw [readCont] at h
    by_cases hb : 0x80 ≤ b ∧ b < 0xC0
    · rw [if_pos hb] at h
      exact Nat.le_succ_of_le (readCont_suffix_length h)
    · rw [if_neg hb] at h
      cases h

/-- Strict UTF-8 decoder (rejects truncated sequences, stray
continuation bytes, overlong forms, surrogates and values above
0x10FFFF, as CPython's strict utf-8 codec does). -/
def utf8Decode : List Nat → Option (List Nat)
  | [] => some []
  | b1 :: rest =>
    if b1 < 0x80 then (utf8Decode rest).map (fun cs => b1 :: cs)
    else if b1 < 0xC2 then none
    else if b1 < 0xE0 then
      match h : readCont 1 (b1 - 0xC0) rest with
      | some (v, rest2) => (utf8Decode rest2).map (fun cs => v :: cs)
      | none => none
    else if b1 < 0xF0 then
      match h : readCont 2 (b1 - 0xE0) rest with
      | some (v, rest3) =>
        if 0x800 ≤ v ∧ ¬(0xD800 ≤ v ∧ v < 0xE000) then
          (utf8Decode rest3).map (fun cs => v :: cs)
        else none
      | none => none
    else if b1 < 0xF5 then
      match h : readCont 3 (b1 - 0xF0) rest with
      | some (v, rest4) =>
        if 0x10000 ≤ v ∧ v < 0x110000 then
          (utf8Decode rest4).map (fun cs => v :: cs)
        else none
      | none => none
    else none
termination_by bs => bs.length
decreasing_by
  all_goals simp only [List.length_cons]
  · omega
  · exact Nat.lt_succ_of_le (readCont_suffix_length h)
  · exact Nat.lt_succ_of_le (readCont_suffix_length h)
  · exact Nat.lt_succ_of_le (readCont_suffix_length h)

/-- The UTF-8 bytes of a Lean string. -/
def strToUtf8 (s : String) : List Nat :=
  utf8Encode (s.data.map Char.toNat)

/-- Rebuild a string from decoded scalar values. -/
def cpsToStr (cps : List Nat) : String := ⟨cps.map Char.ofNat⟩

/-! ### JSON values (the shapes json.loads can return) -/

/-- A parsed JSON value; objects are association lists. -/
inductive JVal where
  | jnull : JVal
  | jbool : Bool → JVal
  | jnum : Int → JVal
  | jstr : String → JVal
  | jarr : List JVal → JVal
  | jobj : List (String × JVal) → JVal
  deriving Repr

/-- Python dict.get(k, d) on an object field list. -/
def jget (fields : List (String × JVal)) (k : String) (d : JVal) : JVal :=
  match fields.lookup k with
  | some v => v
  | none => d

/-- Python d[k] = v (replace the binding if present, else append). -/
def jset (fields : List (String × JVal)) (k : String) (v : JVal) :
    List (String × JVal) :=
  if (fields.lookup k).isSome then
    fields.map (fun p => if p.1 = k then (k, v) else p)
  else fields ++ [(k, v)]

/-- Python comparison v == "N/A" for a JSON value. -/
def isNA : JVal → Bool
  | .jstr s => s = "N/A"
  | _ => false

/-! ### Exceptions raised and caught by the module -/

/-- The exception classes the handler distinguishes. A Python
UnicodeDecodeError is a ValueError subclass, but is kept as its own
constructor so theorems can name it; json.JSONDecodeError never escapes
analyze_book_with_bedrock. -/
inductive PyErr where
  | fileNotFound : String → PyErr
  | valueError : String → PyErr
  | decodeError : String → PyErr
  | otherError : String → PyErr
  deriving Repr, DecidableEq

/-- Python str(e): the message carried by the exception. -/
def errStr : PyErr → String
  | .fileNotFound m => m
  | .valueError m => m
  | .decodeError m => m
  | .otherError m => m

/-- The message handed to handle_processing_error by the matching
except clause in lambda_handler (lines 342-353): UnicodeDecodeError is
caught by the ValueError clause. -/
def handlerMsg : PyErr → String
  | .fileNotFound m => "File not found: " ++ m
  | .valueError m => "Data validation error: " ++ m
  | .decodeError m => "Data validation error: " ++ m
  | .otherError m => "An unexpected error occurred during processing: " ++ m

/-- The statusCode each except clause assigns (202, 202, 500). -/
def errCode : PyErr → Nat
  | .fileNotFound _ => 202
  | .valueError _ => 202
  | .decodeError _ => 202
  | .otherError _ => 500

/-! ### External collaborators and module state -/

/-- One block of the Bedrock Messages API response content. -/
structure ContentBlock where
  ctype : String
  ctext : String
  deriving Repr, DecidableEq

/-- The opaque external services the module calls: S3 get_object
(none = NoSuchKey), pypdf page extraction (pages whose extract_text may
return None; error = a pypdf exception message), the Bedrock invocation
keyed by the prompt text (error = transport/service failure message),
json.loads on the model text (none = json.JSONDecodeError), S3
put_object success or failure, and the wall clock in milliseconds. -/
structure Env where
  getObject : String → String → Option (List Nat)
  pdfParse : List Nat → Except String (List (Option String))
  bedrock : String → Except String (List ContentBlock)
  jsonParse : String → Option JVal
  s3Put : String → String → String → Except String Unit
  now : Nat

/-- The durable stores: the DynamoDB table keyed by bookId, and the
processed-text S3 bucket keyed by object key. -/
structure SysState where
  table : String → Option (List (String × JVal))
  processedBucket : String → Option String

/-- An empty pair of stores. -/
def SysState.empty : SysState := ⟨fun _ => none, fun _ => none⟩

/-- One S3 event record (bucket name and object key). -/
structure EventRecord where
  bucket : String
  key : String

/-- The writes the module performs, in program order. -/
inductive WriteEvent where
  | dynamoPut : String → List (String × JVal) → WriteEvent
  | s3PutOk : String → String → String → WriteEvent
  | s3PutFail : String → String → String → String → WriteEvent

/-- Replay one write against the stores (put_item and put_object are
unconditional overwrites in DynamoDB and S3). -/
def applyEvent (st : SysState) : WriteEvent → SysState
  | .dynamoPut bid row =>
    { st with table := fun k => if k = bid then some row else st.table k }
  | .s3PutOk _ key content =>
    { st with processedBucket :=
        fun k => if k = key then some content else st.processedBucket k }
  | .s3PutFail _ _ _ _ => st

/-- Replay a trace of writes in order. -/
def applyEvents (st : SysState) (evs : List WriteEvent) : SysState :=
  evs.foldl applyEvent st

/-! ### The module under verification (src/lambda_function.py) -/

/-- PROCESSED_TEXT_BUCKET_NAME (line 22; left blank in the source). -/
def PROCESSED_TEXT_BUCKET_NAME : String := ""

/-- download_and_extract_text_from_s3 (lines 32-66): get the object
(NoSuchKey becomes FileNotFoundError), then dispatch on the lowercased
last dot-segment of the key: txt decodes the bytes as UTF-8, pdf
concatenates the per-page extract_text results (None contributing ""),
anything else raises ValueError naming the extension; pypdf failures
propagate unchanged. -/
def download_and_extract_text_from_s3 (env : Env) (bucket_name key : String) :
    Except PyErr String :=
  match env.getObject bucket_name key with
  | none =>
    .error (.fileNotFound ("File not found: s3://" ++ bucket_name ++ "/" ++ key))
  | some file_content_bytes =>
    let file_ext := fileExt key
    if file_ext = "txt" then
      match utf8Decode file_content_bytes with
      | some cps => .ok (cpsToStr cps)
      | none => .error (.decodeError "utf-8 codec cannot decode bytes")
    else if file_ext = "pdf" then
      match env.pdfParse file_content_bytes with
      | .ok pages =>
        .ok (pages.foldl (fun text page => text ++ page.getD "") "")
      | .error m => .error (.otherError m)
    else
      .error (.valueError
        ("Unsupported file type: " ++ file_ext ++ ". (pdf, txt만 지원)"))

/-- Concatenation of the text content blocks of the Messages API
response (lines 154-157). -/
def concatContentText (blocks : List ContentBlock) : String :=
  blocks.foldl
    (fun acc b => if b.ctype = "text" then acc ++ b.ctext else acc) ""

/-- The record returned by the json.JSONDecodeError handler in
analyze_book_with_bedrock (lines 169-176). -/
def parseFallback (book_id raw : String) : JVal :=
  .jobj
    [("title", .jstr (pyBasename book_id)),
     ("author", .jstr "N/A"),
     ("prologue_summary",
      .jstr ("AI analysis failed to parse. Raw text: " ++ pyTruncate raw 200)),
     ("episode_summaries", .jarr []),
     ("ending_summary", .jstr "N/A"),
     ("book_overview",
      .jstr "AI analysis failed to provide a valid JSON output.")]

/-- analyze_book_with_bedrock (lines 68-179): invoke the model,
concatenate the text content blocks, parse them as JSON; on
JSONDecodeError return the fallback record; invocation failures
re-raise. -/
def analyze_book_with_bedrock (env : Env) (extracted_text book_id : String) :
    Except PyErr JVal :=
  match env.bedrock extracted_text with
  | .error m => .error (.otherError m)
  | .ok blocks =>
    let ai_analysis_raw_text := concatContentText blocks
    match env.jsonParse ai_analysis_raw_text with
    | some book_analysis_data => .ok book_analysis_data
    | none => .ok (parseFallback book_id ai_analysis_raw_text)

/-- The in-place fixup of analysis_data at the head of
save_metadata_to_dynamodb (lines 194-197). -/
def fixupAnalysis (book_id : String) (d : List (String × JVal)) :
    List (String × JVal) :=
  let d1 := if isNA (jget d "title" (.jstr "N/A")) then
      jset d "title" (.jstr book_id)
    else d
  if isNA (jget d1 "author" (.jstr "N/A")) ∧ (d1.lookup "author").isNone then
    jset d1 "author" (.jstr "Unknown")
  else d1

/-- save_metadata_to_dynamodb (lines 182-217): the item handed to
put_item, after the fixup. -/
def save_metadata_to_dynamodb (book_id : String) (analysis_data : List (String × JVal))
    (original_s3_key processed_s3_key : String) (now : Nat) :
    List (String × JVal) :=
  let d := fixupAnalysis book_id analysis_data
  [("bookId", .jstr book_id),
   ("title", jget d "title" (.jstr "Unknown Title")),
   ("author", jget d "author" (.jstr "Unknown Author")),
   ("genre", jget d "genre" (.jstr "Unknown")),
   ("originalS3Key", .jstr original_s3_key),
   ("processedS3Key", .jstr processed_s3_key),
   ("protagonist", jget d "protagonist" (.jarr [])),
   ("worldbuilding", jget d "worldbuilding" (.jstr "")),
   ("temporalSpatialSetting", jget d "temporal_spatial_setting" (.jstr "")),
   ("plotSummary", jget d "plot_summary" (.jstr "")),
   ("keyEvents", jget d "key_events" (.jarr [])),
   ("endingSummary", jget d "ending_summary" (.jstr "")),
   ("bookOverview", jget d "book_overview" (.jstr "")),
   ("status", .jstr "PROCESSED"),
   ("lastProcessedDate", .jnum now)]

/-- handle_processing_error (lines 239-254): the minimal FAILED item
handed to put_item. -/
def handle_processing_error (book_id file_key error_message : String)
    (now : Nat) : List (String × JVal) :=
  [("bookId", .jstr book_id),
   ("status", .jstr "FAILED"),
   ("errorMessage", .jstr error_message),
   ("originalS3Key", .jstr file_key),
   ("lastProcessedDate", .jnum now)]

/-- The per-record body of the loop in lambda_handler (lines 311-353):
extract, analyze, write metadata, write the processed text; any raised
exception is classified by the except clauses, which record a FAILED
row and report the error. Returns the writes in program order and the
exception (if any) that reached an except clause. -/
def processRecordTrace (env : Env) (r : EventRecord) :
    List WriteEvent × Option PyErr :=
  let book_id := book_idOf r.key
  match download_and_extract_text_from_s3 env r.bucket r.key with
  | .error e =>
    ([.dynamoPut book_id
        (handle_processing_error book_id r.key (handlerMsg e) env.now)],
     some e)
  | .ok extracted_text =>
    match analyze_book_with_bedrock env extracted_text book_id with
    | .error e =>
      ([.dynamoPut book_id
          (handle_processing_error book_id r.key (handlerMsg e) env.now)],
       some e)
    | .ok book_analysis_data =>
      let processed_s3_key := "processed_texts/" ++ book_id ++ ".txt"
      match book_analysis_data with
      | .jobj fields =>
        let row := save_metadata_to_dynamodb book_id fields r.key
          processed_s3_key env.now
        match env.s3Put PROCESSED_TEXT_BUCKET_NAME processed_s3_key
            extracted_text with
        | .ok _ =>
          ([.dynamoPut book_id row,
            .s3PutOk PROCESSED_TEXT_BUCKET_NAME processed_s3_key
              extracted_text],
           none)
        | .error m =>
          let e := PyErr.otherError m
          ([.dynamoPut book_id row,
            .s3PutFail PROCESSED_TEXT_BUCKET_NAME processed_s3_key
              extracted_text m,
            .dynamoPut book_id
              (handle_processing_error book_id r.key (handlerMsg e) env.now)],
           some e)
      | _ =>
        let e := PyErr.otherError "AttributeError: object has no attribute get"
        ([.dynamoPut book_id
            (handle_processing_error book_id r.key (handlerMsg e) env.now)],
         some e)

/-- The writes one record performs. -/
def itemEvents (env : Env) (r : EventRecord) : List WriteEvent :=
  (processRecordTrace env r).1

/-- The exception (if any) a record's processing ends in. -/
def itemResult (env : Env) (r : EventRecord) : Option PyErr :=
  (processRecordTrace env r).2

/-- One iteration of the loop in lambda_handler: apply the record's
writes to the stores, extend the trace, and update overall_status
exactly as the except clauses do (an error replaces the statusCode with
its class code; success leaves it unchanged). -/
def handlerStep (env : Env) (acc : SysState × List WriteEvent × Nat)
    (r : EventRecord) : SysState × List WriteEvent × Nat :=
  let (evs, res) := processRecordTrace env r
  (applyEvents acc.1 evs, acc.2.1 ++ evs,
   match res with
   | none => acc.2.2
   | some e => errCode e)

/-- lambda_handler (lines 302-357): overall_status starts at 200; each
record is processed in order. Returns the final stores, the full write
trace, and the returned statusCode. -/
def lambda_handler (env : Env) (st0 : SysState) (records : List EventRecord) :
    SysState × List WriteEvent × Nat :=
  records.foldl (handlerStep env) (st0, [], 200)

/-! ### Lemmas about the Python string primitives -/

theorem splitOnChar_of_not_mem {c : Char} :
    ∀ {cs : List Char}, c ∉ cs → splitOnChar c cs = [cs]
  | [], _ => rfl
  | x :: xs, h => by
    have hx : x ≠ c := fun hxc => h (hxc ▸ List.mem_cons_self x xs)
    have ih : splitOnChar c xs = [xs] :=
      splitOnChar_of_not_mem (fun hm => h (List.mem_cons_of_mem x hm))
    simp only [splitOnChar, List.foldr_cons] at ih ⊢
    rw [ih, if_neg hx]

theorem pyBasename_of_no_slash {s : String} (h : '/' ∉ s.data) :
    pyBasename s = s := by
  rw [pyBasename, splitOnChar_of_not_mem h]
  rfl

/-- Char.ofNat of a valid codepoint has that codepoint as toNat. -/
theorem toNat_ofNat_of_valid {n : Nat} (h : n.isValidChar) :
    (Char.ofNat n).toNat = n := by
  rw [Char.ofNat, dif_pos h]
  rfl

theorem toLower_ne_dot {x : Char} (hx : x ≠ '.') : Char.toLower x ≠ '.' := by
  rw [Char.toLower]
  split
  · rename_i hr
    intro hcontra
    have hv : (x.toNat + 32).isValidChar := Or.inl (by omega)
    have := congrArg Char.toNat hcontra
    rw [toNat_ofNat_of_valid hv] at this
    have hdot : ('.').toNat = 46 := rfl
    rw [hdot] at this
    omega
  · exact hx

theorem dot_not_mem_pyLowerData {cs : List Char} (h : '.' ∉ cs) :
    '.' ∉ pyLowerData cs := by
  intro hm
  rw [pyLowerData, List.mem_map] at hm
  obtain ⟨x, hx, hlow⟩ := hm
  exact toLower_ne_dot (fun hxd => h (hxd ▸ hx)) hlow

theorem fileExt_of_no_dot {key : String} (h : '.' ∉ key.data) :
    fileExt key = pyLower key := by
  rw [fileExt, splitOnChar_of_not_mem (dot_not_mem_pyLowerData h)]
  rfl

/-- The processed-text key construction is injective in book_id. -/
theorem processedKey_inj {a b : String}
    (h : "processed_texts/" ++ a ++ ".txt" = "processed_texts/" ++ b ++ ".txt") :
    a = b := by
  have hd := congrArg String.data h
  simp only [String.data_append] at hd
  have h1 : "processed_texts/".data ++ a.data = "processed_texts/".data ++ b.data :=
    List.append_inj_left' hd rfl
  have h2 : a.data = b.data := List.append_inj_right h1 rfl
  cases a; cases b
  exact congrArg String.mk h2

/-! ### Correctness of the UTF-8 codec model -/

theorem utf8Decode_ascii {b : Nat} (h : b < 0x80) (bs : List Nat) :
    utf8Decode (b :: bs) = (utf8Decode bs).map (fun cs => b :: cs) := by
  rw [utf8Decode]
  rw [if_pos h]

theorem readCont_zero (acc : Nat) (bs : List Nat) :
    readCont 0 acc bs = some (acc, bs) := rfl

theorem readCont_cons {n acc b : Nat} (hb : 0x80 ≤ b) (hb2 : b < 0xC0)
    (bs : List Nat) :
    readCont (n + 1) acc (b :: bs) = readCont n (acc * 64 + (b - 0x80)) bs := by
  rw [readCont, if_pos ⟨hb, hb2⟩]

theorem utf8Decode_two {c : Nat} (h1 : 0x80 ≤ c) (h2 : c < 0x800)
    (bs : List Nat) :
    utf8Decode ((0xC0 + c / 64) :: (0x80 + c % 64) :: bs) =
      (utf8Decode bs).map (fun cs => c :: cs) := by
  have hr : readCont 1 ((0xC0 + c / 64) - 0xC0) ((0x80 + c % 64) :: bs) =
      some (c, bs) := by
    rw [readCont_cons (by omega) (by omega), readCont_zero]
    have : (0xC0 + c / 64 - 0xC0) * 64 + (0x80 + c % 64 - 0x80) = c := by omega
    rw [this]
  rw [utf8Decode]
  rw [if_neg (by omega), if_neg (by omega), if_pos (by omega)]
  split
  · rename_i v rest2 heq
    rw [hr] at heq
    injection heq with heq2
    injection heq2 with hv hrest
    rw [hv, hrest]
  · rename_i heq
    rw [hr] at heq
    cases heq

theorem utf8Decode_three {c : Nat} (h1 : 0x800 ≤ c) (h2 : c < 0x10000)
    (h3 : ¬(0xD800 ≤ c ∧ c < 0xE000)) (bs : List Nat) :
    utf8Decode ((0xE0 + c / 4096) :: (0x80 + (c / 64) % 64) ::
        (0x80 + c % 64) :: bs) =
      (utf8Decode bs).map (fun cs => c :: cs) := by
  have hr : readCont 2 ((0xE0 + c / 4096) - 0xE0)
      ((0x80 + (c / 64) % 64) :: (0x80 + c % 64) :: bs) = some (c, bs) := by
    rw [readCont_cons (by omega) (by omega),
      readCont_cons (by omega) (by omega), readCont_zero]
    have : ((0xE0 + c / 4096 - 0xE0) * 64 + (0x80 + (c / 64) % 64 - 0x80)) * 64 +
        (0x80 + c % 64 - 0x80) = c := by omega
    rw [this]
  rw [utf8Decode]
  rw [if_neg (by omega), if_neg (by omega), if_neg (by omega),
    if_pos (by omega)]
  split
  · rename_i v rest3 heq
    rw [hr] at heq
    injection heq with heq2
    injection heq2 with hv hrest
    rw [← hv, ← hrest, if_pos ⟨h1, h3⟩]
  · rename_i heq
    rw [hr] at heq
    cases heq

theorem utf8Decode_four {c : Nat} (h1 : 0x10000 ≤ c) (h2 : c < 0x110000)
    (bs : List Nat) :
    utf8Decode ((0xF0 + c / 262144) :: (0x80 + (c / 4096) % 64) ::
        (0x80 + (c / 64) % 64) :: (0x80 + c % 64) :: bs) =
      (utf8Decode bs).map (fun cs => c :: cs) := by
  have hr : readCont 3 ((0xF0 + c / 262144) - 0xF0)
      ((0x80 + (c / 4096) % 64) :: (0x80 + (c / 64) % 64) ::
        (0x80 + c % 64) :: bs) = some (c, bs) := by
    rw [readCont_cons (by omega) (by omega),
      readCont_cons (by omega) (by omega),
      readCont_cons (by omega) (by omega), readCont_zero]
    have : (((0xF0 + c / 262144 - 0xF0) * 64 +
        (0x80 + (c / 4096) % 64 - 0x80)) * 64 +
        (0x80 + (c / 64) % 64 - 0x80)) * 64 + (0x80 + c % 64 - 0x80) = c := by
      omega
    rw [this]
  rw [utf8Decode]
  rw [if_neg (by omega), if_neg (by omega), if_neg (by omega),
    if_neg (by omega), if_pos (by omega)]
  split
  · rename_i v rest4 heq
    rw [hr] at heq
    injection heq with heq2
    injection heq2 with hv hrest
    rw [← hv, ← hrest, if_pos ⟨h1, h2⟩]
  · rename_i heq
    rw [hr] at heq
    cases heq

theorem readCont_one_inv {acc v : Nat} {bs rest : List Nat}
    (h : readCont 1 acc bs = some (v, rest)) :
    ∃ b2, bs = b2 :: rest ∧ 0x80 ≤ b2 ∧ b2 < 0xC0 ∧
      v = acc * 64 + (b2 - 0x80) := by
  cases bs with
  | nil => rw [readCont] at h; cases h
  | cons b bs2 =>
    rw [readCont] at h
    by_cases hb : 0x80 ≤ b ∧ b < 0xC0
    · rw [if_pos hb, readCont_zero] at h
      injection h with h2
      injection h2 with hv hrest
      exact ⟨b, by rw [hrest], hb.1, hb.2, hv.symm⟩
    · rw [if_neg hb] at h
      cases h

theorem readCont_succ_inv {n acc v : Nat} {bs rest : List Nat}
    (h : readCont (n + 1) acc bs = some (v, rest)) :
    ∃ b bs2, bs = b :: bs2 ∧ 0x80 ≤ b ∧ b < 0xC0 ∧
      readCont n (acc * 64 + (b - 0x80)) bs2 = some (v, rest) := by
  cases bs with
  | nil => rw [readCont] at h; cases h
  | cons b bs2 =>
    rw [readCont] at h
    by_cases hb : 0x80 ≤ b ∧ b < 0xC0
    · rw [if_pos hb] at h
      exact ⟨b, bs2, rfl, hb.1, hb.2, h⟩
    · rw [if_neg hb] at h
      cases h

theorem readCont_two_inv {acc v : Nat} {bs rest : List Nat}
    (h : readCont 2 acc bs = some (v, rest)) :
    ∃ b2 b3, bs = b2 :: b3 :: rest ∧ 0x80 ≤ b2 ∧ b2 < 0xC0 ∧
      0x80 ≤ b3 ∧ b3 < 0xC0 ∧
      v = (acc * 64 + (b2 - 0x80)) * 64 + (b3 - 0x80) := by
  obtain ⟨b2, bs2, hbs, hb2a, hb2b, h2⟩ := readCont_succ_inv h
  obtain ⟨b3, hbs2, hb3a, hb3b, hv⟩ := readCont_one_inv h2
  exact ⟨b2, b3, by rw [hbs, hbs2], hb2a, hb2b, hb3a, hb3b, hv⟩

theorem readCont_three_inv {acc v : Nat} {bs rest : List Nat}
    (h : readCont 3 acc bs = some (v, rest)) :
    ∃ b2 b3 b4, bs = b2 :: b3 :: b4 :: rest ∧ 0x80 ≤ b2 ∧ b2 < 0xC0 ∧
      0x80 ≤ b3 ∧ b3 < 0xC0 ∧ 0x80 ≤ b4 ∧ b4 < 0xC0 ∧
      v = ((acc * 64 + (b2 - 0x80)) * 64 + (b3 - 0x80)) * 64 + (b4 - 0x80) := by
  obtain ⟨b2, bs2, hbs, hb2a, hb2b, h2⟩ := readCont_succ_inv h
  obtain ⟨b3, b4, hbs2, hb3a, hb3b, hb4a, hb4b, hv⟩ := readCont_two_inv h2
  exact ⟨b2, b3, b4, by rw [hbs, hbs2], hb2a, hb2b, hb3a, hb3b, hb4a, hb4b, hv⟩

/-- Decoding inverts encoding on valid scalar values. -/
theorem utf8Decode_utf8Encode :
    ∀ {cps : List Nat}, (∀ c ∈ cps, validScalar c) →
      utf8Decode (utf8Encode cps) = some cps
  | [], _ => by
    have he : utf8Encode [] = [] := rfl
    rw [he, utf8Decode]
  | c :: cps, h => by
    have hc : validScalar c := h c (List.mem_cons_self c cps)
    have ih : utf8Decode (utf8Encode cps) = some cps :=
      utf8Decode_utf8Encode (fun x hx => h x (List.mem_cons_of_mem c hx))
    have henc : utf8Encode (c :: cps) = utf8EncodeChar c ++ utf8Encode cps := by
      rw [utf8Encode, List.map_cons, List.flatten_cons]
      rfl
    rw [henc, utf8EncodeChar]
    rcases Nat.lt_or_ge c 0x80 with h1 | h1
    · rw [if_pos h1]
      simpa [utf8Decode_ascii h1] using congrArg (Option.map (fun cs => c :: cs)) ih
    · rcases Nat.lt_or_ge c 0x800 with h2 | h2
      · rw [if_neg (by omega), if_pos h2]
        simpa [utf8Decode_two h1 h2] using
          congrArg (Option.map (fun cs => c :: cs)) ih
      · rcases Nat.lt_or_ge c 0x10000 with h3 | h3
        · have hs : ¬(0xD800 ≤ c ∧ c < 0xE000) := by
            rcases hc with hlt | ⟨hgt, _⟩ <;> omega
          rw [if_neg (by omega), if_neg (by omega), if_pos h3]
          simpa [utf8Decode_three h2 h3 hs] using
            congrArg (Option.map (fun cs => c :: cs)) ih
        · have h4 : c < 0x110000 := by
            rcases hc with hlt | ⟨_, hlt⟩ <;> omega
          rw [if_neg (by omega), if_neg (by omega), if_neg (by omega)]
          simpa [utf8Decode_four h3 h4] using
            congrArg (Option.map (fun cs => c :: cs)) ih

theorem utf8Decode_sound_aux :
    ∀ (n : Nat) {bs cps : List Nat}, bs.length ≤ n →
      utf8Decode bs = some cps →
      utf8Encode cps = bs ∧ ∀ c ∈ cps, validScalar c := by
  intro n
  induction n with
  | zero =>
    intro bs cps hlen h
    cases bs with
    | nil =>
      rw [utf8Decode] at h
      injection h with h
      subst h
      exact ⟨rfl, by intro c hc; cases hc⟩
    | cons b rest => simp at hlen
  | succ n ih =>
    intro bs cps hlen h
    cases bs with
    | nil =>
      rw [utf8Decode] at h
      injection h with h
      subst h
      exact ⟨rfl, by intro c hc; cases hc⟩
    | cons b1 rest =>
      have hlen2 : rest.length ≤ n := by
        simp only [List.length_cons] at hlen
        omega
      rw [utf8Decode] at h
      by_cases h1 : b1 < 0x80
      · rw [if_pos h1] at h
        cases hr : utf8Decode rest with
        | none => rw [hr] at h; cases h
        | some cs =>
          rw [hr, Option.map_some'] at h
          injection h with h
          subst h
          obtain ⟨ih1, ih2⟩ := ih hlen2 hr
          constructor
          · have he : utf8EncodeChar b1 = [b1] := by
              rw [utf8EncodeChar, if_pos h1]
            calc utf8Encode (b1 :: cs)
                = utf8EncodeChar b1 ++ utf8Encode cs := by
                  rw [utf8Encode, List.map_cons, List.flatten_cons]; rfl
              _ = b1 :: rest := by rw [he, ih1]; rfl
          · intro c hc
            rcases List.mem_cons.mp hc with hc | hc
            · subst hc
              exact Or.inl (by omega)
            · exact ih2 c hc
      · rw [if_neg h1] at h
        by_cases h2 : b1 < 0xC2
        · rw [if_pos h2] at h
          cases h
        · rw [if_neg h2] at h
          by_cases h3 : b1 < 0xE0
          · rw [if_pos h3] at h
            split at h
            · rename_i v rest2 heq
              obtain ⟨b2, hbs, hb2a, hb2b, hv⟩ := readCont_one_inv heq
              have hlen3 : rest2.length ≤ n := by
                rw [hbs] at hlen2
                simp only [List.length_cons] at hlen2
                omega
              cases hr : utf8Decode rest2 with
              | none => rw [hr] at h; cases h
              | some cs =>
                rw [hr, Option.map_some'] at h
                injection h with h
                subst h
                obtain ⟨ih1, ih2⟩ := ih hlen3 hr
                have hvlo : 0x80 ≤ v := by omega
                have hvhi : v < 0x800 := by omega
                constructor
                · have he : utf8EncodeChar v = [b1, b2] := by
                    rw [utf8EncodeChar, if_neg (by omega), if_pos hvhi]
                    have e1 : 0xC0 + v / 64 = b1 := by omega
                    have e2 : 0x80 + v % 64 = b2 := by omega
                    rw [e1, e2]
                  calc utf8Encode (v :: cs)
                      = utf8EncodeChar v ++ utf8Encode cs := by
                        rw [utf8Encode, List.map_cons, List.flatten_cons]; rfl
                    _ = b1 :: rest := by rw [he, ih1, hbs]; rfl
                · intro c hc
                  rcases List.mem_cons.mp hc with hc | hc
                  · subst hc
                    exact Or.inl (by omega)
                  · exact ih2 c hc
            · cases h
          · rw [if_neg h3] at h
            by_cases h4 : b1 < 0xF0
            · rw [if_pos h4] at h
              split at h
              · rename_i v rest3 heq
                obtain ⟨b2, b3, hbs, hb2a, hb2b, hb3a, hb3b, hv⟩ :=
                  readCont_two_inv heq
                have hlen3 : rest3.length ≤ n := by
                  rw [hbs] at hlen2
                  simp only [List.length_cons] at hlen2
                  omega
                by_cases hval : 0x800 ≤ v ∧ ¬(0xD800 ≤ v ∧ v < 0xE000)
                · rw [if_pos hval] at h
                  cases hr : utf8Decode rest3 with
                  | none => rw [hr] at h; cases h
                  | some cs =>
                    rw [hr, Option.map_some'] at h
                    injection h with h
                    subst h
                    obtain ⟨ih1, ih2⟩ := ih hlen3 hr
                    have hvhi : v < 0x10000 := by omega
                    constructor
                    · have he : utf8EncodeChar v = [b1, b2, b3] := by
                        rw [utf8EncodeChar, if_neg (by omega),
                          if_neg (by omega), if_pos hvhi]
                        have e1 : 0xE0 + v / 4096 = b1 := by omega
                        have e2 : 0x80 + v / 64 % 64 = b2 := by omega
                        have e3 : 0x80 + v % 64 = b3 := by omega
                        rw [e1, e2, e3]
                      calc utf8Encode (v :: cs)
                          = utf8EncodeChar v ++ utf8Encode cs := by
                            rw [utf8Encode, List.map_cons, List.flatten_cons]
                            rfl
                        _ = b1 :: rest := by rw [he, ih1, hbs]; rfl
                    · intro c hc
                      rcases List.mem_cons.mp hc with hc | hc
                      · have hcv : validScalar v := by
                          rcases Nat.lt_or_ge v 0xD800 with hlt | hge
                          · exact Or.inl hlt
                          · exact Or.inr ⟨by omega, by omega⟩
                        rw [hc]
                        exact hcv
                      · exact ih2 c hc
                · rw [if_neg hval] at h
                  cases h
              · cases h
            · rw [if_neg h4] at h
              by_cases h5 : b1 < 0xF5
              · rw [if_pos h5] at h
                split at h
                · rename_i v rest4 heq
                  obtain ⟨b2, b3, b4, hbs, hb2a, hb2b, hb3a, hb3b, hb4a,
                    hb4b, hv⟩ := readCont_three_inv heq
                  have hlen3 : rest4.length ≤ n := by
                    rw [hbs] at hlen2
                    simp only [List.length_cons] at hlen2
                    omega
                  by_cases hval : 0x10000 ≤ v ∧ v < 0x110000
                  · rw [if_pos hval] at h
                    cases hr : utf8Decode rest4 with
                    | none => rw [hr] at h; cases h
                    | some cs =>
                      rw [hr, Option.map_some'] at h
                      injection h with h
                      subst h
                      obtain ⟨ih1, ih2⟩ := ih hlen3 hr
                      constructor
                      · have he : utf8EncodeChar v = [b1, b2, b3, b4] := by
                          rw [utf8EncodeChar, if_neg (by omega),
                            if_neg (by omega), if_neg (by omega)]
                          have e1 : 0xF0 + v / 262144 = b1 := by omega
                          have e2 : 0x80 + v / 4096 % 64 = b2 := by omega
                          have e3 : 0x80 + v / 64 % 64 = b3 := by omega
                          have e4 : 0x80 + v % 64 = b4 := by omega
                          rw [e1, e2, e3, e4]
                        calc utf8Encode (v :: cs)
                            = utf8EncodeChar v ++ utf8Encode cs := by
                              rw [utf8Encode, List.map_cons, List.flatten_cons]
                              rfl
                          _ = b1 :: rest := by rw [he, ih1, hbs]; rfl
                      · intro c hc
                        rcases List.mem_cons.mp hc with hc | hc
                        · subst hc
                          exact Or.inr ⟨by omega, by omega⟩
                        · exact ih2 c hc
                  · rw [if_neg hval] at h
                    cases h
                · cases h
              · rw [if_neg h5] at h
                cases h

/-- A successful decode is exact: the input bytes are precisely the
encoding of the decoded scalars, all of which are valid. -/
theorem utf8Decode_sound {bs cps : List Nat} (h : utf8Decode bs = some cps) :
    utf8Encode cps = bs ∧ ∀ c ∈ cps, validScalar c :=
  utf8Decode_sound_aux bs.length (Nat.le_refl _) h

/-! ### From codepoints back to Lean strings -/

theorem validScalar_iff_isValidChar {n : Nat} :
    validScalar n ↔ n.isValidChar := Iff.rfl

theorem validScalar_toNat (c : Char) : validScalar c.toNat :=
  validScalar_iff_isValidChar.mpr c.valid

theorem cpsToStr_map_toNat (s : String) :
    cpsToStr (s.data.map Char.toNat) = s := by
  rw [cpsToStr, List.map_map]
  have : (Char.ofNat ∘ Char.toNat) = id := by
    funext c
    exact Char.ofNat_toNat c
  rw [this, List.map_id]

theorem map_toNat_cpsToStr :
    ∀ {cps : List Nat}, (∀ c ∈ cps, validScalar c) →
      (cpsToStr cps).data.map Char.toNat = cps
  | [], _ => rfl
  | c :: cps, h => by
    have hc : (Char.ofNat c).toNat = c :=
      toNat_ofNat_of_valid (validScalar_iff_isValidChar.mp
        (h c (List.mem_cons_self c cps)))
    have ih := map_toNat_cpsToStr
      (fun x hx => h x (List.mem_cons_of_mem c hx))
    simp only [cpsToStr, List.map_cons] at ih ⊢
    rw [hc]
    exact congrArg (c :: ·) ih

theorem utf8Decode_strToUtf8 (s : String) :
    utf8Decode (strToUtf8 s) = some (s.data.map Char.toNat) :=
  utf8Decode_utf8Encode (by
    intro c hc
    rw [List.mem_map] at hc
    obtain ⟨x, _, hx⟩ := hc
    rw [← hx]
    exact validScalar_toNat x)

/-! ### Trace analysis: last writes win in both stores -/

/-- Fold step tracking the last DynamoDB put for a given bookId. -/
def rowStep (bid : String) (acc : Option (List (String × JVal))) :
    WriteEvent → Option (List (String × JVal))
  | .dynamoPut b row => if b = bid then some row else acc
  | _ => acc

/-- The last row a trace writes for a given bookId, if any. -/
def lastRowFor (bid : String) (evs : List WriteEvent) :
    Option (List (String × JVal)) :=
  evs.foldl (rowStep bid) none

/-- Fold step tracking the last successful S3 put for a given key. -/
def putStep (key : String) (acc : Option String) : WriteEvent → Option String
  | .s3PutOk _ k content => if k = key then some content else acc
  | _ => acc

/-- The content last successfully put at a given S3 key, if any. -/
def lastPutFor (key : String) (evs : List WriteEvent) : Option String :=
  evs.foldl (putStep key) none

theorem foldl_rowStep (bid : String) :
    ∀ (evs : List WriteEvent) (acc : Option (List (String × JVal))),
      evs.foldl (rowStep bid) acc = (lastRowFor bid evs).or acc
  | [], acc => rfl
  | ev :: evs, acc => by
    rw [List.foldl_cons, foldl_rowStep bid evs (rowStep bid acc ev)]
    have hr : lastRowFor bid (ev :: evs) =
        (lastRowFor bid evs).or (rowStep bid none ev) := by
      rw [lastRowFor, List.foldl_cons]
      exact foldl_rowStep bid evs (rowStep bid none ev)
    rw [hr]
    cases hl : lastRowFor bid evs with
    | some row => simp only [Option.or_some]
    | none =>
      simp only [Option.none_or]
      cases ev with
      | dynamoPut b row =>
        by_cases hb : b = bid
        · simp only [rowStep, if_pos hb, Option.or_some]
        · simp only [rowStep, if_neg hb, Option.none_or]
      | s3PutOk b k c => rfl
      | s3PutFail b k c m => rfl

theorem foldl_putStep (key : String) :
    ∀ (evs : List WriteEvent) (acc : Option String),
      evs.foldl (putStep key) acc = (lastPutFor key evs).or acc
  | [], acc => rfl
  | ev :: evs, acc => by
    rw [List.foldl_cons, foldl_putStep key evs (putStep key acc ev)]
    have hr : lastPutFor key (ev :: evs) =
        (lastPutFor key evs).or (putStep key none ev) := by
      rw [lastPutFor, List.foldl_cons]
      exact foldl_putStep key evs (putStep key none ev)
    rw [hr]
    cases hl : lastPutFor key evs with
    | some c => simp only [Option.or_some]
    | none =>
      simp only [Option.none_or]
      cases ev with
      | dynamoPut b row => rfl
      | s3PutOk b k c =>
        by_cases hk : k = key
        · simp only [putStep, if_pos hk, Option.or_some]
        · simp only [putStep, if_neg hk, Option.none_or]
      | s3PutFail b k c m => rfl

theorem lastRowFor_append (bid : String) (e1 e2 : List WriteEvent) :
    lastRowFor bid (e1 ++ e2) =
      (lastRowFor bid e2).or (lastRowFor bid e1) := by
  rw [lastRowFor, List.foldl_append, ← lastRowFor, foldl_rowStep]

theorem lastPutFor_append (key : String) (e1 e2 : List WriteEvent) :
    lastPutFor key (e1 ++ e2) =
      (lastPutFor key e2).or (lastPutFor key e1) := by
  rw [lastPutFor, List.foldl_append, ← lastPutFor, foldl_putStep]

theorem applyEvents_table (bid : String) :
    ∀ (evs : List WriteEvent) (st : SysState),
      (applyEvents st evs).table bid = (lastRowFor bid evs).or (st.table bid)
  | [], st => rfl
  | ev :: evs, st => by
    rw [applyEvents, List.foldl_cons, ← applyEvents,
      applyEvents_table bid evs (applyEvent st ev)]
    have hr : lastRowFor bid (ev :: evs) =
        (lastRowFor bid evs).or (rowStep bid none ev) := by
      rw [lastRowFor, List.foldl_cons]
      exact foldl_rowStep bid evs (rowStep bid none ev)
    rw [hr]
    cases hl : lastRowFor bid evs with
    | some row => simp only [Option.or_some]
    | none =>
      simp only [Option.none_or]
      cases ev with
      | dynamoPut b row =>
        by_cases hb : bid = b
        · simp only [applyEvent, rowStep, hb, if_pos rfl, if_true,
            Option.or_some]
        · have hb2 : ¬(b = bid) := fun hc => hb hc.symm
          simp only [applyEvent, rowStep, if_neg hb, if_neg hb2,
            Option.none_or]
      | s3PutOk b k c => rfl
      | s3PutFail b k c m => rfl

theorem applyEvents_bucket (key : String) :
    ∀ (evs : List WriteEvent) (st : SysState),
      (applyEvents st evs).processedBucket key =
        (lastPutFor key evs).or (st.processedBucket key)
  | [], st => rfl
  | ev :: evs, st => by
    rw [applyEvents, List.foldl_cons, ← applyEvents,
      applyEvents_bucket key evs (applyEvent st ev)]
    have hr : lastPutFor key (ev :: evs) =
        (lastPutFor key evs).or (putStep key none ev) := by
      rw [lastPutFor, List.foldl_cons]
      exact foldl_putStep key evs (putStep key none ev)
    rw [hr]
    cases hl : lastPutFor key evs with
    | some c => simp only [Option.or_some]
    | none =>
      simp only [Option.none_or]
      cases ev with
      | dynamoPut b row => rfl
      | s3PutOk b k c =>
        by_cases hk : key = k
        · simp only [applyEvent, putStep, hk, if_pos rfl, if_true,
            Option.or_some]
        · have hk2 : ¬(k = key) := fun hc => hk hc.symm
          simp only [applyEvent, putStep, if_neg hk, if_neg hk2,
            Option.none_or]
      | s3PutFail b k c m => rfl

/-! ### Global shape of one lambda_handler invocation -/

/-- The outcome codes of the failing records, in batch order. -/
def itemCodes (env : Env) (records : List EventRecord) : List Nat :=
  records.filterMap (fun r => (itemResult env r).map errCode)

theorem handlerStep_eq (env : Env) (st : SysState) (evs : List WriteEvent)
    (c : Nat) (r : EventRecord) :
    handlerStep env (st, evs, c) r =
      (applyEvents st (itemEvents env r), evs ++ itemEvents env r,
       match itemResult env r with
       | none => c
       | some e => errCode e) := rfl

theorem handler_foldl (env : Env) :
    ∀ (records : List EventRecord) (st : SysState) (evs : List WriteEvent)
      (c : Nat),
      records.foldl (handlerStep env) (st, evs, c) =
        (applyEvents st (records.flatMap (itemEvents env)),
         evs ++ records.flatMap (itemEvents env),
         (itemCodes env records).getLastD c)
  | [], st, evs, c => by
    simp only [List.foldl_nil, List.flatMap_nil, itemCodes,
      List.filterMap_nil, List.getLastD_nil, List.append_nil]
    rfl
  | r :: records, st, evs, c => by
    rw [List.foldl_cons, handlerStep_eq,
      handler_foldl env records (applyEvents st (itemEvents env r))
        (evs ++ itemEvents env r)]
    rw [List.flatMap_cons]
    have hstate : applyEvents (applyEvents st (itemEvents env r))
        (records.flatMap (itemEvents env)) =
        applyEvents st (itemEvents env r ++ records.flatMap (itemEvents env)) := by
      rw [applyEvents, applyEvents, applyEvents, List.foldl_append]
    have hcodes : itemCodes env (r :: records) =
        match itemResult env r with
        | none => itemCodes env records
        | some e => errCode e :: itemCodes env records := by
      rw [itemCodes, List.filterMap_cons]
      cases itemResult env r with
      | none => rfl
      | some e => rfl
    rw [hstate, List.append_assoc, hcodes]
    cases itemResult env r with
    | none => rfl
    | some e =>
      rw [List.getLastD_cons]

theorem lambda_handler_eq (env : Env) (st0 : SysState)
    (records : List EventRecord) :
    lambda_handler env st0 records =
      (applyEvents st0 (records.flatMap (itemEvents env)),
       records.flatMap (itemEvents env),
       (itemCodes env records).getLastD 200) := by
  rw [lambda_handler, handler_foldl]
  rw [List.nil_append]

/-! ### The three possible shapes of one record's processing -/

/-- processed_s3_key as computed in the loop (line 326). -/
def processedKeyOf (r : EventRecord) : String :=
  "processed_texts/" ++ book_idOf r.key ++ ".txt"

/-- The FAILED row a record's error handling writes. -/
def failRowOf (env : Env) (r : EventRecord) (e : PyErr) :
    List (String × JVal) :=
  handle_processing_error (book_idOf r.key) r.key (handlerMsg e) env.now

/-- The PROCESSED metadata row a record's success path writes. -/
def metaRowOf (env : Env) (r : EventRecord) (fields : List (String × JVal)) :
    List (String × JVal) :=
  save_metadata_to_dynamodb (book_idOf r.key) fields r.key (processedKeyOf r)
    env.now

/-- Every record's processing takes exactly one of three shapes:
failure before persistence (one FAILED put), full success (metadata put
then text put), or a text-put failure after the metadata put (metadata
put, failed S3 put, FAILED put). -/
theorem processRecordTrace_shape (env : Env) (r : EventRecord) :
    (∃ e, processRecordTrace env r =
        ([.dynamoPut (book_idOf r.key) (failRowOf env r e)], some e)) ∨
    (∃ text fields,
      download_and_extract_text_from_s3 env r.bucket r.key = .ok text ∧
      analyze_book_with_bedrock env text (book_idOf r.key) = .ok (.jobj fields) ∧
      ((env.s3Put PROCESSED_TEXT_BUCKET_NAME (processedKeyOf r) text = .ok () ∧
        processRecordTrace env r =
          ([.dynamoPut (book_idOf r.key) (metaRowOf env r fields),
            .s3PutOk PROCESSED_TEXT_BUCKET_NAME (processedKeyOf r) text],
           none)) ∨
       (∃ m, env.s3Put PROCESSED_TEXT_BUCKET_NAME (processedKeyOf r) text =
          .error m ∧
        processRecordTrace env r =
          ([.dynamoPut (book_idOf r.key) (metaRowOf env r fields),
            .s3PutFail PROCESSED_TEXT_BUCKET_NAME (processedKeyOf r) text m,
            .dynamoPut (book_idOf r.key) (failRowOf env r (.otherError m))],
           some (.otherError m))))) := by
  rw [processRecordTrace]
  cases hd : download_and_extract_text_from_s3 env r.bucket r.key with
  | error e => exact Or.inl ⟨e, rfl⟩
  | ok text =>
    dsimp only
    cases ha : analyze_book_with_bedrock env text (book_idOf r.key) with
    | error e => exact Or.inl ⟨e, rfl⟩
    | ok data =>
      dsimp only
      cases data with
      | jobj fields =>
        dsimp only
        cases hs : env.s3Put PROCESSED_TEXT_BUCKET_NAME
            ("processed_texts/" ++ book_idOf r.key ++ ".txt") text with
        | ok u =>
          cases u
          refine Or.inr ⟨text, fields, rfl, ha, Or.inl ⟨hs, ?_⟩⟩
          dsimp only
          rfl
        | error m =>
          refine Or.inr ⟨text, fields, rfl, ha, Or.inr ⟨m, hs, ?_⟩⟩
          dsimp only
          rfl
      | jnull => exact Or.inl ⟨_, rfl⟩
      | jbool b => exact Or.inl ⟨_, rfl⟩
      | jnum n => exact Or.inl ⟨_, rfl⟩
      | jstr s => exact Or.inl ⟨_, rfl⟩
      | jarr xs => exact Or.inl ⟨_, rfl⟩

theorem itemResult_some_row (env : Env) (r : EventRecord) (e : PyErr)
    (h : itemResult env r = some e) :
    lastRowFor (book_idOf r.key) (itemEvents env r) =
      some (failRowOf env r e) ∧
    WriteEvent.dynamoPut (book_idOf r.key) (failRowOf env r e) ∈
      itemEvents env r := by
  rcases processRecordTrace_shape env r with ⟨e2, hpt⟩ |
    ⟨text, fields, hdl, han, ⟨hok, hpt⟩ | ⟨m, hfail, hpt⟩⟩
  · rw [itemResult, hpt] at h
    injection h with h
    subst h
    rw [itemEvents, hpt]
    constructor
    · simp [lastRowFor, rowStep]
    · exact List.mem_singleton.mpr rfl
  · rw [itemResult, hpt] at h
    cases h
  · rw [itemResult, hpt] at h
    injection h with h
    subst h
    rw [itemEvents, hpt]
    constructor
    · simp [lastRowFor, rowStep]
    · simp

theorem itemResult_none_shape (env : Env) (r : EventRecord)
    (h : itemResult env r = none) :
    ∃ text fields,
      download_and_extract_text_from_s3 env r.bucket r.key = .ok text ∧
      analyze_book_with_bedrock env text (book_idOf r.key) =
        .ok (.jobj fields) ∧
      env.s3Put PROCESSED_TEXT_BUCKET_NAME (processedKeyOf r) text = .ok () ∧
      itemEvents env r =
        [.dynamoPut (book_idOf r.key) (metaRowOf env r fields),
         .s3PutOk PROCESSED_TEXT_BUCKET_NAME (processedKeyOf r) text] := by
  rcases processRecordTrace_shape env r with ⟨e2, hpt⟩ |
    ⟨text, fields, hdl, han, ⟨hok, hpt⟩ | ⟨m, hfail, hpt⟩⟩
  · rw [itemResult, hpt] at h
    cases h
  · exact ⟨text, fields, hdl, han, hok, by rw [itemEvents, hpt]⟩
  · rw [itemResult, hpt] at h
    cases h

theorem itemEvents_put_bid (env : Env) (r : EventRecord) {b : String}
    {row : List (String × JVal)}
    (h : WriteEvent.dynamoPut b row ∈ itemEvents env r) :
    b = book_idOf r.key := by
  rcases processRecordTrace_shape env r with ⟨e2, hpt⟩ |
    ⟨text, fields, hdl, han, ⟨hok, hpt⟩ | ⟨m, hfail, hpt⟩⟩ <;>
    rw [itemEvents, hpt] at h <;> simp at h
  · exact h.1
  · exact h.1
  · rcases h with ⟨hb, _⟩ | ⟨hb, _⟩ <;> exact hb

theorem itemEvents_putOk_key (env : Env) (r : EventRecord)
    {bkt k c : String}
    (h : WriteEvent.s3PutOk bkt k c ∈ itemEvents env r) :
    k = processedKeyOf r := by
  rcases processRecordTrace_shape env r with ⟨e2, hpt⟩ |
    ⟨text, fields, hdl, han, ⟨hok, hpt⟩ | ⟨m, hfail, hpt⟩⟩ <;>
    rw [itemEvents, hpt] at h <;> simp at h
  exact h.2.1

/-! ### Isolation: items with distinct book ids do not interfere -/

theorem lastRowFor_none_of_no_put {bid : String} :
    ∀ {evs : List WriteEvent},
      (∀ b row, WriteEvent.dynamoPut b row ∈ evs → b ≠ bid) →
      lastRowFor bid evs = none
  | [], _ => rfl
  | ev :: evs, h => by
    have hstep : rowStep bid none ev = none := by
      cases ev with
      | dynamoPut b row =>
        simp only [rowStep,
          if_neg (h b row (List.mem_cons_self _ _))]
      | s3PutOk b k c => rfl
      | s3PutFail b k c m => rfl
    have ih := lastRowFor_none_of_no_put
      (fun b row hm => h b row (List.mem_cons_of_mem ev hm))
    rw [lastRowFor, List.foldl_cons, foldl_rowStep, ih,
      Option.none_or, hstep]

theorem lastPutFor_none_of_no_put {key : String} :
    ∀ {evs : List WriteEvent},
      (∀ bkt k c, WriteEvent.s3PutOk bkt k c ∈ evs → k ≠ key) →
      lastPutFor key evs = none
  | [], _ => rfl
  | ev :: evs, h => by
    have hstep : putStep key none ev = none := by
      cases ev with
      | dynamoPut b row => rfl
      | s3PutOk b k c =>
        simp only [putStep,
          if_neg (h b k c (List.mem_cons_self _ _))]
      | s3PutFail b k c m => rfl
    have ih := lastPutFor_none_of_no_put
      (fun bkt k c hm => h bkt k c (List.mem_cons_of_mem ev hm))
    rw [lastPutFor, List.foldl_cons, foldl_putStep, ih,
      Option.none_or, hstep]

theorem lastRowFor_flatMap_none (env : Env) {bid : String}
    {records : List EventRecord}
    (h : ∀ q ∈ records, book_idOf q.key ≠ bid) :
    lastRowFor bid (records.flatMap (itemEvents env)) = none := by
  apply lastRowFor_none_of_no_put
  intro b row hm
  rw [List.mem_flatMap] at hm
  obtain ⟨q, hq, hev⟩ := hm
  rw [itemEvents_put_bid env q hev]
  exact h q hq

theorem lastPutFor_flatMap_none (env : Env) {key : String}
    {records : List EventRecord}
    (h : ∀ q ∈ records, processedKeyOf q ≠ key) :
    lastPutFor key (records.flatMap (itemEvents env)) = none := by
  apply lastPutFor_none_of_no_put
  intro bkt k c hm
  rw [List.mem_flatMap] at hm
  obtain ⟨q, hq, hev⟩ := hm
  rw [itemEvents_putOk_key env q hev]
  exact h q hq

/-- Every record's processing writes at least one row under its own
book id, and that is the row that survives within the item. -/
theorem itemRow_isSome (env : Env) (r : EventRecord) :
    ∃ row, lastRowFor (book_idOf r.key) (itemEvents env r) = some row := by
  cases hres : itemResult env r with
  | none =>
    obtain ⟨text, fields, _, _, _, hev⟩ := itemResult_none_shape env r hres
    refine ⟨metaRowOf env r fields, ?_⟩
    rw [hev]
    simp [lastRowFor, rowStep]
  | some e =>
    exact ⟨failRowOf env r e, (itemResult_some_row env r e hres).1⟩

/-- With pairwise distinct book ids, the final table row of a batch
member is exactly the last row its own processing wrote. -/
theorem final_table_eq (env : Env) (st : SysState)
    (records : List EventRecord) (r : EventRecord) (hmem : r ∈ records)
    (hnodup : (records.map (fun q => book_idOf q.key)).Nodup) :
    (lambda_handler env st records).1.table (book_idOf r.key) =
      lastRowFor (book_idOf r.key) (itemEvents env r) := by
  obtain ⟨l1, l2, rfl⟩ := List.append_of_mem hmem
  have hmap : ((l1 ++ r :: l2).map fun q => book_idOf q.key) =
      l1.map (fun q => book_idOf q.key) ++
        book_idOf r.key :: l2.map (fun q => book_idOf q.key) := by
    rw [List.map_append, List.map_cons]
  rw [hmap] at hnodup
  have h1 : ∀ q ∈ l1, book_idOf q.key ≠ book_idOf r.key := by
    intro q hq hbid
    have hdisj := (List.nodup_append.mp hnodup).2.2
    exact hdisj (List.mem_map_of_mem _ hq)
      (by rw [hbid]; exact List.mem_cons_self _ _)
  have h2 : ∀ q ∈ l2, book_idOf q.key ≠ book_idOf r.key := by
    intro q hq hbid
    have hcons := (List.nodup_append.mp hnodup).2.1
    rw [List.nodup_cons] at hcons
    exact hcons.1 (hbid ▸ List.mem_map_of_mem _ hq)
  rw [lambda_handler_eq]
  rw [applyEvents_table]
  rw [List.flatMap_append, List.flatMap_cons, lastRowFor_append,
    lastRowFor_append, lastRowFor_flatMap_none env h2, Option.none_or,
    lastRowFor_flatMap_none env h1]
  obtain ⟨row, hrow⟩ := itemRow_isSome env r
  rw [hrow]
  rfl

/-- With pairwise distinct book ids, the final companion object of a
batch member is whatever its own processing put there, else the prior
content. -/
theorem final_bucket_eq (env : Env) (st : SysState)
    (records : List EventRecord) (r : EventRecord) (hmem : r ∈ records)
    (hnodup : (records.map (fun q => book_idOf q.key)).Nodup) :
    (lambda_handler env st records).1.processedBucket (processedKeyOf r) =
      (lastPutFor (processedKeyOf r) (itemEvents env r)).or
        (st.processedBucket (processedKeyOf r)) := by
  obtain ⟨l1, l2, rfl⟩ := List.append_of_mem hmem
  have hmap : ((l1 ++ r :: l2).map fun q => book_idOf q.key) =
      l1.map (fun q => book_idOf q.key) ++
        book_idOf r.key :: l2.map (fun q => book_idOf q.key) := by
    rw [List.map_append, List.map_cons]
  rw [hmap] at hnodup
  have h1 : ∀ q ∈ l1, processedKeyOf q ≠ processedKeyOf r := by
    intro q hq hkey
    have hbid : book_idOf q.key = book_idOf r.key := processedKey_inj hkey
    have hdisj := (List.nodup_append.mp hnodup).2.2
    exact hdisj (List.mem_map_of_mem _ hq)
      (by rw [hbid]; exact List.mem_cons_self _ _)
  have h2 : ∀ q ∈ l2, processedKeyOf q ≠ processedKeyOf r := by
    intro q hq hkey
    have hbid : book_idOf q.key = book_idOf r.key := processedKey_inj hkey
    have hcons := (List.nodup_append.mp hnodup).2.1
    rw [List.nodup_cons] at hcons
    exact hcons.1 (hbid ▸ List.mem_map_of_mem _ hq)
  rw [lambda_handler_eq]
  rw [applyEvents_bucket]
  rw [List.flatMap_append, List.flatMap_cons, lastPutFor_append,
    lastPutFor_append, lastPutFor_flatMap_none env h2, Option.none_or,
    lastPutFor_flatMap_none env h1]
  cases lastPutFor (processedKeyOf r) (itemEvents env r) with
  | some c => rfl
  | none => rfl

/-! ### Branch behaviour of download_and_extract_text_from_s3 -/

theorem extract_txt_eq (env : Env) (bucket key : String) (bytes : List Nat)
    (hobj : env.getObject bucket key = some bytes)
    (hext : fileExt key = "txt") :
    download_and_extract_text_from_s3 env bucket key =
      match utf8Decode bytes with
      | some cps => .ok (cpsToStr cps)
      | none => .error (.decodeError "utf-8 codec cannot decode bytes") := by
  rw [download_and_extract_text_from_s3, hobj]
  dsimp only
  rw [if_pos hext]

theorem extract_pdf_eq (env : Env) (bucket key : String) (bytes : List Nat)
    (hobj : env.getObject bucket key = some bytes)
    (hext : fileExt key = "pdf") :
    download_and_extract_text_from_s3 env bucket key =
      match env.pdfParse bytes with
      | .ok pages => .ok (pages.foldl (fun text page => text ++ page.getD "") "")
      | .error m => .error (.otherError m) := by
  rw [download_and_extract_text_from_s3, hobj]
  dsimp only
  rw [hext]
  rw [if_neg (by decide), if_pos rfl]

theorem extract_other_eq (env : Env) (bucket key : String) (bytes : List Nat)
    (hobj : env.getObject bucket key = some bytes)
    (h1 : fileExt key ≠ "txt") (h2 : fileExt key ≠ "pdf") :
    download_and_extract_text_from_s3 env bucket key =
      .error (.valueError ("Unsupported file type: " ++ fileExt key ++
        ". (pdf, txt만 지원)")) := by
  rw [download_and_extract_text_from_s3, hobj]
  dsimp only
  rw [if_neg h1, if_neg h2]

/-! ### Concrete environments used to witness the theorems -/

/-- A small working backend: two parseable pdf books (one under two
prefixes), a pdf with a corrupt body, an unsupported file, one with no
extension; the model answers an empty JSON object; S3 writes succeed. -/
def envA : Env where
  getObject := fun _ k =>
    if k = "books/good.pdf" then some [37, 80, 68, 70]
    else if k = "books/bad.pdf" then some [0]
    else if k = "books/plain.xyz" then some [1, 2]
    else if k = "NOEXT" then some [9]
    else if k = "a/book.pdf" then some [0]
    else if k = "b/book.pdf" then some [37, 80, 68, 70]
    else none
  pdfParse := fun bs =>
    if bs = [37, 80, 68, 70] then .ok [some "Hello ", none, some "World"]
    else .error "EOF marker not found"
  bedrock := fun _ => .ok [⟨"text", "{}"⟩]
  jsonParse := fun s => if s = "{}" then some (.jobj []) else none
  s3Put := fun _ _ _ => .ok ()
  now := 1700

/-- Like envA, but every S3 put_object fails. -/
def envB : Env where
  getObject := envA.getObject
  pdfParse := envA.pdfParse
  bedrock := envA.bedrock
  jsonParse := envA.jsonParse
  s3Put := fun _ _ _ => .error "AccessDenied"
  now := 1700

/-- A backend whose model reply is not JSON (three content blocks, one
of them not text). -/
def envC : Env where
  getObject := envA.getObject
  pdfParse := envA.pdfParse
  bedrock := fun _ =>
    .ok [⟨"text", "I am not JSON"⟩, ⟨"tool_use", "ignored"⟩, ⟨"text", " at all"⟩]
  jsonParse := fun _ => none
  s3Put := fun _ _ _ => .ok ()
  now := 1700

/-- A backend with one well-encoded and one malformed txt book. -/
def envD : Env where
  getObject := fun _ k =>
    if k = "book.txt" then some (strToUtf8 "hi")
    else if k = "bad.txt" then some [255]
    else none
  pdfParse := fun _ => .error "EOF marker not found"
  bedrock := fun _ => .ok [⟨"text", "{}"⟩]
  jsonParse := fun s => if s = "{}" then some (.jobj []) else none
  s3Put := fun _ _ _ => .ok ()
  now := 1700

/-! ### The claims -/

/-- C8: for every pdf input, extraction concatenates the per-page
extracted texts in page order; a page with no extractable text
contributes exactly the empty string at its position (never skipped),
so the segment count equals the page count. -/
theorem C8_pdf_pages_concatenated (env : Env) (bucket key : String)
    (bytes : List Nat) (pages : List (Option String))
    (hobj : env.getObject bucket key = some bytes)
    (hext : fileExt key = "pdf")
    (hpdf : env.pdfParse bytes = .ok pages) :
    download_and_extract_text_from_s3 env bucket key =
      .ok (String.join (pages.map (fun p => p.getD ""))) ∧
    (pages.map (fun p => p.getD "")).length = pages.length ∧
    ∀ i : Nat, pages[i]? = some none →
      (pages.map (fun p => p.getD ""))[i]? = some "" := by
  refine ⟨?_, List.length_map _ _, ?_⟩
  · rw [extract_pdf_eq env bucket key bytes hobj hext, hpdf]
    dsimp only
    rw [String.join, List.foldl_map]
  · intro i hi
    rw [List.getElem?_map, hi]
    rfl

/-- Witness for C8: a three-page pdf whose middle page has no
extractable text yields the two outer texts concatenated. -/
theorem C8_witness :
    download_and_extract_text_from_s3 envA "src" "books/good.pdf" =
      .ok "Hello World" := by
  have h := C8_pdf_pages_concatenated envA "src" "books/good.pdf"
    [37, 80, 68, 70] [some "Hello ", none, some "World"] rfl (by decide) rfl
  rw [h.1]
  rfl

/-- C9: for txt inputs the extracted text is the exact UTF-8 decoding
of the source bytes — encoding round-trips byte for byte — and
extraction fails with the decoding error exactly when the bytes are not
valid UTF-8. -/
theorem C9_txt_utf8_roundtrip (env : Env) (bucket key : String)
    (hext : fileExt key = "txt") :
    (∀ s : String, env.getObject bucket key = some (strToUtf8 s) →
      download_and_extract_text_from_s3 env bucket key = .ok s) ∧
    (∀ bytes, env.getObject bucket key = some bytes →
      utf8Decode bytes = none →
      download_and_extract_text_from_s3 env bucket key =
        .error (.decodeError "utf-8 codec cannot decode bytes")) ∧
    (∀ bytes t, env.getObject bucket key = some bytes →
      download_and_extract_text_from_s3 env bucket key = .ok t →
      strToUtf8 t = bytes) := by
  refine ⟨?_, ?_, ?_⟩
  · intro s hobj
    rw [extract_txt_eq env bucket key (strToUtf8 s) hobj hext,
      utf8Decode_strToUtf8]
    dsimp only
    rw [cpsToStr_map_toNat]
  · intro bytes hobj hdec
    rw [extract_txt_eq env bucket key bytes hobj hext, hdec]
  · intro bytes t hobj hok
    rw [extract_txt_eq env bucket key bytes hobj hext] at hok
    cases hdec : utf8Decode bytes with
    | none => rw [hdec] at hok; cases hok
    | some cps =>
      rw [hdec] at hok
      injection hok with hok
      obtain ⟨henc, hval⟩ := utf8Decode_sound hdec
      rw [← hok, strToUtf8, map_toNat_cpsToStr hval, henc]

/-- Witness for C9: the bytes of "hi" decode back to "hi", and an
invalid byte fails with the decoding error. -/
theorem C9_witness :
    download_and_extract_text_from_s3 envD "src" "book.txt" = .ok "hi" ∧
    download_and_extract_text_from_s3 envD "src" "bad.txt" =
      .error (.decodeError "utf-8 codec cannot decode bytes") := by
  constructor
  · exact (C9_txt_utf8_roundtrip envD "src" "book.txt" (by decide)).1 "hi" rfl
  · refine (C9_txt_utf8_roundtrip envD "src" "bad.txt" (by decide)).2.1
      [255] rfl ?_
    rw [utf8Decode]
    rfl

/-- C10: a key whose (case-insensitively compared) extension is neither
txt nor pdf fails with a ValueError naming the offending extension; the
matched segment is the final dot-separated segment of the lowercased
key — the whole lowercased key when it contains no dot. -/
theorem C10_unsupported_extension (env : Env) (bucket key : String)
    (bytes : List Nat) (hobj : env.getObject bucket key = some bytes)
    (h1 : fileExt key ≠ "txt") (h2 : fileExt key ≠ "pdf") :
    download_and_extract_text_from_s3 env bucket key =
      .error (.valueError ("Unsupported file type: " ++ fileExt key ++
        ". (pdf, txt만 지원)")) ∧
    ('.' ∉ key.data → fileExt key = pyLower key) := by
  exact ⟨extract_other_eq env bucket key bytes hobj h1 h2,
    fun hdot => fileExt_of_no_dot hdot⟩

/-- Witness for C10: an xyz file is rejected with its extension in the
message, and a dotless key is matched whole (lowercased). -/
theorem C10_witness :
    download_and_extract_text_from_s3 envA "src" "books/plain.xyz" =
      .error (.valueError "Unsupported file type: xyz. (pdf, txt만 지원)") ∧
    download_and_extract_text_from_s3 envA "src" "NOEXT" =
      .error (.valueError "Unsupported file type: noext. (pdf, txt만 지원)") ∧
    fileExt "NOEXT" = pyLower "NOEXT" := by
  refine ⟨?_, ?_, ?_⟩
  · have h := C10_unsupported_extension envA "src" "books/plain.xyz" [1, 2]
      rfl (by decide) (by decide)
    rw [h.1]
    rfl
  · have h := C10_unsupported_extension envA "src" "NOEXT" [9]
      rfl (by decide) (by decide)
    rw [h.1]
    rfl
  · exact (C10_unsupported_extension envA "src" "NOEXT" [9]
      rfl (by decide) (by decide)).2 (by decide)

/-- C1 as frozen is false on one point: in the fallback record the
narrative field book_overview is a fixed diagnostic sentence, neither
"N/A" nor empty (and the truncated raw text is stored behind a fixed
prefix in the prologue_summary field, not alone in a rawModelText
field). Shown at a concrete non-JSON model response. -/
theorem C1_counterexample :
    analyze_book_with_bedrock envC "book text" "mybook" =
      .ok (.jobj
        [("title", .jstr "mybook"),
         ("author", .jstr "N/A"),
         ("prologue_summary",
          .jstr "AI analysis failed to parse. Raw text: I am not JSON at all"),
         ("episode_summaries", .jarr []),
         ("ending_summary", .jstr "N/A"),
         ("book_overview",
          .jstr "AI analysis failed to provide a valid JSON output.")]) ∧
    "AI analysis failed to provide a valid JSON output." ≠ "N/A" ∧
    "AI analysis failed to provide a valid JSON output." ≠ "" := by
  refine ⟨rfl, by decide, by decide⟩

/-- C1 (amended): for every model response whose concatenated text
content is not valid JSON, analyze raises no exception and returns the
deterministic fallback record: title = itemId, author = "N/A", the
prologue_summary field a fixed prefix followed by the raw model text
truncated to at most 200 characters, the episode list empty, the ending
summary "N/A", and book_overview a fixed diagnostic sentence. -/
theorem C1_parse_failure_fallback (env : Env) (text book_id : String)
    (blocks : List ContentBlock)
    (hbed : env.bedrock text = .ok blocks)
    (hparse : env.jsonParse (concatContentText blocks) = none)
    (hslash : '/' ∉ book_id.data) :
    analyze_book_with_bedrock env text book_id =
      .ok (.jobj
        [("title", .jstr book_id),
         ("author", .jstr "N/A"),
         ("prologue_summary",
          .jstr ("AI analysis failed to parse. Raw text: " ++
            pyTruncate (concatContentText blocks) 200)),
         ("episode_summaries", .jarr []),
         ("ending_summary", .jstr "N/A"),
         ("book_overview",
          .jstr "AI analysis failed to provide a valid JSON output.")]) ∧
    (pyTruncate (concatContentText blocks) 200).data.length ≤ 200 := by
  constructor
  · rw [analyze_book_with_bedrock, hbed]
    dsimp only
    rw [hparse]
    dsimp only
    rw [parseFallback, pyBasename_of_no_slash hslash]
  · rw [pyTruncate]
    calc ((concatContentText blocks).data.take 200).length
        = min 200 (concatContentText blocks).data.length :=
          List.length_take _ _
      _ ≤ 200 := Nat.min_le_left _ _

/-- Witness for C1 (amended): the fallback at a concrete three-block
non-JSON response, title taken from the item id. -/
theorem C1_witness :
    analyze_book_with_bedrock envC "some book text" "war_and_peace" =
      .ok (.jobj
        [("title", .jstr "war_and_peace"),
         ("author", .jstr "N/A"),
         ("prologue_summary",
          .jstr ("AI analysis failed to parse. Raw text: " ++
            pyTruncate (concatContentText
              [⟨"text", "I am not JSON"⟩, ⟨"tool_use", "ignored"⟩,
               ⟨"text", " at all"⟩]) 200)),
         ("episode_summaries", .jarr []),
         ("ending_summary", .jstr "N/A"),
         ("book_overview",
          .jstr "AI analysis failed to provide a valid JSON output.")]) := by
  exact (C1_parse_failure_fallback envC "some book text" "war_and_peace"
    [⟨"text", "I am not JSON"⟩, ⟨"tool_use", "ignored"⟩, ⟨"text", " at all"⟩]
    rfl rfl (by decide)).1

/-- C2 as frozen is false: an item that succeeds writes nothing to the
outcome code, so a severe failure followed by a success leaves 500, not
success. Shown on a concrete two-item batch whose first pdf is corrupt
and whose second item fully succeeds. -/
theorem C2_counterexample :
    (lambda_handler envA SysState.empty
      [⟨"src", "books/bad.pdf"⟩, ⟨"src", "books/good.pdf"⟩]).2.2 = 500 ∧
    itemResult envA ⟨"src", "books/good.pdf"⟩ = none ∧
    (500 : Nat) ≠ 200 := by
  refine ⟨rfl, rfl, by decide⟩

/-- C2 (amended): the batch outcome code is last-write-wins among the
failing items only: it equals the class code of the last item that
raised, or 200 when no item raised; a success after a failure leaves
the code of that failure in place. -/
theorem C2_last_failure_wins (env : Env) (st : SysState)
    (records : List EventRecord) :
    ((lambda_handler env st records).2.2 =
      (records.filterMap
        (fun r => (itemResult env r).map errCode)).getLastD 200) ∧
    (∀ r, itemResult env r = none →
      (lambda_handler env st (records ++ [r])).2.2 =
      (lambda_handler env st records).2.2) := by
  constructor
  · rw [lambda_handler_eq]
    rfl
  · intro r hr
    rw [lambda_handler_eq, lambda_handler_eq]
    have hcodes : itemCodes env (records ++ [r]) = itemCodes env records := by
      simp [itemCodes, List.filterMap_append, hr]
    rw [hcodes]

/-- Witness for C2 (amended): on the severe-then-success batch the
formula yields 500, and appending the succeeding item changes nothing. -/
theorem C2_witness :
    (lambda_handler envA SysState.empty
      [⟨"src", "books/bad.pdf"⟩, ⟨"src", "books/good.pdf"⟩]).2.2 =
      ([⟨"src", "books/bad.pdf"⟩, ⟨"src", "books/good.pdf"⟩].filterMap
        (fun r => (itemResult envA r).map errCode)).getLastD 200 ∧
    (lambda_handler envA SysState.empty
      [⟨"src", "books/bad.pdf"⟩, ⟨"src", "books/good.pdf"⟩]).2.2 =
    (lambda_handler envA SysState.empty [⟨"src", "books/bad.pdf"⟩]).2.2 := by
  constructor
  · exact (C2_last_failure_wins envA SysState.empty
      [⟨"src", "books/bad.pdf"⟩, ⟨"src", "books/good.pdf"⟩]).1
  · exact (C2_last_failure_wins envA SysState.empty
      [⟨"src", "books/bad.pdf"⟩]).2 ⟨"src", "books/good.pdf"⟩ rfl

/-- C3 as frozen is false on the escalation point: a recoverable error
sets the outcome to 202 even when a severe 500 was already recorded.
Shown on a concrete batch: corrupt pdf (severe) then unsupported
extension (recoverable) ends at 202, not 500. -/
theorem C3_counterexample :
    (lambda_handler envA SysState.empty
      [⟨"src", "books/bad.pdf"⟩, ⟨"src", "books/plain.xyz"⟩]).2.2 = 202 ∧
    itemResult envA ⟨"src", "books/bad.pdf"⟩ =
      some (.otherError "EOF marker not found") ∧
    errCode (.otherError "EOF marker not found") = 500 ∧
    (202 : Nat) ≠ 500 := by
  refine ⟨rfl, rfl, rfl, by decide⟩

/-- C3 (amended): each failing item replaces the outcome with its own
class code unconditionally — not-found, validation and decoding errors
with 202 (even over an earlier 500), unclassified errors with 500 — a
succeeding item leaves it unchanged, and a batch with no errors ends at
200. -/
theorem C3_error_classification (env : Env) (st : SysState)
    (records : List EventRecord) (r : EventRecord) :
    ((lambda_handler env st (records ++ [r])).2.2 =
      match itemResult env r with
      | none => (lambda_handler env st records).2.2
      | some e => errCode e) ∧
    ((∀ q ∈ records, itemResult env q = none) →
      (lambda_handler env st records).2.2 = 200) ∧
    (∀ m, errCode (.fileNotFound m) = 202 ∧ errCode (.valueError m) = 202 ∧
      errCode (.decodeError m) = 202 ∧ errCode (.otherError m) = 500) := by
  refine ⟨?_, ?_, fun m => ⟨rfl, rfl, rfl, rfl⟩⟩
  · rw [lambda_handler_eq, lambda_handler_eq]
    have hcodes : itemCodes env (records ++ [r]) =
        itemCodes env records ++ itemCodes env [r] := by
      rw [itemCodes, itemCodes, itemCodes, List.filterMap_append]
    rw [hcodes]
    cases hr : itemResult env r with
    | none =>
      have h1 : itemCodes env [r] = [] := by
        simp [itemCodes, hr]
      rw [h1, List.append_nil]
    | some e =>
      have h1 : itemCodes env [r] = [errCode e] := by
        simp [itemCodes, hr]
      rw [h1, List.getLastD_concat]
  · intro hall
    rw [lambda_handler_eq]
    have h1 : itemCodes env records = [] := by
      rw [itemCodes, List.filterMap_eq_nil_iff]
      intro q hq
      rw [hall q hq]
      rfl
    rw [h1]
    rfl

/-- Witness for C3 (amended): at a concrete severe-then-recoverable
batch the last clause applies with code 202, and the all-success batch
of no records ends at 200. -/
theorem C3_witness :
    (lambda_handler envA SysState.empty
      [⟨"src", "books/bad.pdf"⟩, ⟨"src", "books/plain.xyz"⟩]).2.2 =
      errCode (.valueError
        "Unsupported file type: xyz. (pdf, txt만 지원)") ∧
    (lambda_handler envA SysState.empty []).2.2 = 200 := by
  constructor
  · exact (C3_error_classification envA SysState.empty
      [⟨"src", "books/bad.pdf"⟩] ⟨"src", "books/plain.xyz"⟩).1
  · exact (C3_error_classification envA SysState.empty []
      ⟨"src", "books/plain.xyz"⟩).2.1 (fun q hq => by cases hq)

/-- C4: whenever an item's processing raises at any stage, a FAILED
StatusRecord whose message embeds the original error text is written
for that item, and the handler's trace is always the concatenation of
every record's own trace in order — no error kind halts the batch. -/
theorem C4_failure_recorded_batch_continues (env : Env) (st : SysState)
    (records : List EventRecord) (r : EventRecord) (e : PyErr)
    (h : itemResult env r = some e) :
    ((lambda_handler env st records).2.1 =
      records.flatMap (itemEvents env)) ∧
    WriteEvent.dynamoPut (book_idOf r.key)
      (handle_processing_error (book_idOf r.key) r.key (handlerMsg e)
        env.now) ∈ itemEvents env r ∧
    (∃ p, handlerMsg e = p ++ errStr e) := by
  refine ⟨?_, (itemResult_some_row env r e h).2, ?_⟩
  · rw [lambda_handler_eq]
  · cases e with
    | fileNotFound m => exact ⟨"File not found: ", rfl⟩
    | valueError m => exact ⟨"Data validation error: ", rfl⟩
    | decodeError m => exact ⟨"Data validation error: ", rfl⟩
    | otherError m =>
      exact ⟨"An unexpected error occurred during processing: ", rfl⟩

/-- Witness for C4: the corrupt pdf in a two-item batch gets its FAILED
row with the pypdf message embedded, and the trace covers both items. -/
theorem C4_witness :
    ((lambda_handler envA SysState.empty
      [⟨"src", "books/bad.pdf"⟩, ⟨"src", "books/good.pdf"⟩]).2.1 =
      [⟨"src", "books/bad.pdf"⟩,
       (⟨"src", "books/good.pdf"⟩ : EventRecord)].flatMap
        (itemEvents envA)) ∧
    WriteEvent.dynamoPut "bad"
      (handle_processing_error "bad" "books/bad.pdf"
        (handlerMsg (.otherError "EOF marker not found")) 1700) ∈
      itemEvents envA ⟨"src", "books/bad.pdf"⟩ := by
  have h := C4_failure_recorded_batch_continues envA SysState.empty
    [⟨"src", "books/bad.pdf"⟩, ⟨"src", "books/good.pdf"⟩]
    ⟨"src", "books/bad.pdf"⟩ (.otherError "EOF marker not found") rfl
  exact ⟨h.1, h.2.1⟩

/-- C5: with pairwise distinct book ids, every batch member ends in
exactly one of two states — its full PROCESSED metadata row written and
its companion text present in the bucket, or exactly the minimal
five-field FAILED StatusRecord with no analysis fields. -/
theorem C5_no_partial_persistence (env : Env) (st : SysState)
    (records : List EventRecord) (r : EventRecord) (hmem : r ∈ records)
    (hnodup : (records.map (fun q => book_idOf q.key)).Nodup) :
    (itemResult env r = none →
      ∃ text fields,
        download_and_extract_text_from_s3 env r.bucket r.key = .ok text ∧
        analyze_book_with_bedrock env text (book_idOf r.key) =
          .ok (.jobj fields) ∧
        (lambda_handler env st records).1.table (book_idOf r.key) =
          some (metaRowOf env r fields) ∧
        (metaRowOf env r fields).lookup "status" =
          some (.jstr "PROCESSED") ∧
        (lambda_handler env st records).1.processedBucket
          (processedKeyOf r) = some text) ∧
    (∀ e, itemResult env r = some e →
      (lambda_handler env st records).1.table (book_idOf r.key) =
        some (failRowOf env r e) ∧
      (failRowOf env r e).map Prod.fst =
        ["bookId", "status", "errorMessage", "originalS3Key",
         "lastProcessedDate"] ∧
      (failRowOf env r e).lookup "status" = some (.jstr "FAILED")) := by
  constructor
  · intro hres
    obtain ⟨text, fields, hdl, han, hput, hev⟩ :=
      itemResult_none_shape env r hres
    refine ⟨text, fields, hdl, han, ?_, rfl, ?_⟩
    · rw [final_table_eq env st records r hmem hnodup, hev]
      simp [lastRowFor, rowStep]
    · rw [final_bucket_eq env st records r hmem hnodup, hev]
      simp [lastPutFor, putStep]
  · intro e hres
    refine ⟨?_, rfl, rfl⟩
    rw [final_table_eq env st records r hmem hnodup]
    exact (itemResult_some_row env r e hres).1

/-- Witness for C5: in the bad-then-good batch the good item ends with
its PROCESSED row and companion text, and the bad one with the minimal
FAILED row. -/
theorem C5_witness :
    ((lambda_handler envA SysState.empty
      [⟨"src", "books/bad.pdf"⟩, ⟨"src", "books/good.pdf"⟩]).1.table
        "good" =
      some (metaRowOf envA ⟨"src", "books/good.pdf"⟩ []) ∧
     (lambda_handler envA SysState.empty
      [⟨"src", "books/bad.pdf"⟩, ⟨"src", "books/good.pdf"⟩]).1.processedBucket
        "processed_texts/good.txt" = some "Hello World") ∧
    (lambda_handler envA SysState.empty
      [⟨"src", "books/bad.pdf"⟩, ⟨"src", "books/good.pdf"⟩]).1.table
        "bad" =
      some (failRowOf envA ⟨"src", "books/bad.pdf"⟩
        (.otherError "EOF marker not found")) := by
  have hgood := (C5_no_partial_persistence envA SysState.empty
    [⟨"src", "books/bad.pdf"⟩, ⟨"src", "books/good.pdf"⟩]
    ⟨"src", "books/good.pdf"⟩ (by simp) (by decide)).1 rfl
  have hbad := (C5_no_partial_persistence envA SysState.empty
    [⟨"src", "books/bad.pdf"⟩, ⟨"src", "books/good.pdf"⟩]
    ⟨"src", "books/bad.pdf"⟩ (by simp) (by decide)).2
    (.otherError "EOF marker not found") rfl
  obtain ⟨text, fields, hdl, han, htab, hstat, hbuck⟩ := hgood
  have htext : text = "Hello World" := by
    have hgw : download_and_extract_text_from_s3 envA "src" "books/good.pdf" =
        Except.ok "Hello World" := rfl
    have h2 : Except.ok (ε := PyErr) "Hello World" = Except.ok text :=
      hgw.symm.trans hdl
    injection h2 with h2
    exact h2.symm
  have hfields : fields = [] := by
    have h2 := han
    rw [htext] at h2
    have h3 : analyze_book_with_bedrock envA "Hello World" "good" =
        .ok (.jobj []) := rfl
    have h4 := h3.symm.trans h2
    injection h4 with h4
    injection h4 with h4
    exact h4.symm
  refine ⟨⟨?_, ?_⟩, hbad.1⟩
  · rw [← hfields]
    exact htab
  · rw [← htext]
    exact hbuck

/-- C6 as frozen is false on its second half: when the raw-text write
fails after the metadata write succeeded, the item is not left marked
PROCESSED — the except clause immediately overwrites the row with a
minimal FAILED record. Shown on a concrete batch whose S3 puts all
fail. -/
theorem C6_counterexample :
    (lambda_handler envB SysState.empty
      [⟨"src", "books/good.pdf"⟩]).1.table "good" =
      some (handle_processing_error "good" "books/good.pdf"
        "An unexpected error occurred during processing: AccessDenied"
        1700) ∧
    (handle_processing_error "good" "books/good.pdf"
      "An unexpected error occurred during processing: AccessDenied"
      1700).lookup "status" = some (.jstr "FAILED") ∧
    ("FAILED" : String) ≠ "PROCESSED" := by
  refine ⟨rfl, rfl, by decide⟩

/-- C6 (amended): the metadata write (status PROCESSED) is issued
before the raw-text write; if the raw-text write then fails, the error
handler overwrites the row with the minimal FAILED record, so the item
ends FAILED with its metadata replaced and without its companion text
(the PROCESSED state is only transient). -/
theorem C6_metadata_before_text (env : Env) (r : EventRecord)
    (text : String) (fields : List (String × JVal))
    (hdl : download_and_extract_text_from_s3 env r.bucket r.key = .ok text)
    (han : analyze_book_with_bedrock env text (book_idOf r.key) =
      .ok (.jobj fields)) :
    (itemEvents env r =
      .dynamoPut (book_idOf r.key) (metaRowOf env r fields) ::
        (match env.s3Put PROCESSED_TEXT_BUCKET_NAME (processedKeyOf r)
            text with
         | .ok _ =>
           [.s3PutOk PROCESSED_TEXT_BUCKET_NAME (processedKeyOf r) text]
         | .error m =>
           [.s3PutFail PROCESSED_TEXT_BUCKET_NAME (processedKeyOf r) text m,
            .dynamoPut (book_idOf r.key)
              (failRowOf env r (.otherError m))])) ∧
    (∀ m, env.s3Put PROCESSED_TEXT_BUCKET_NAME (processedKeyOf r) text =
        .error m →
      ∀ st : SysState,
        (applyEvents st (itemEvents env r)).table (book_idOf r.key) =
          some (failRowOf env r (.otherError m)) ∧
        (applyEvents st (itemEvents env r)).processedBucket
          (processedKeyOf r) = st.processedBucket (processedKeyOf r)) := by
  have hev : itemEvents env r =
      .dynamoPut (book_idOf r.key) (metaRowOf env r fields) ::
        (match env.s3Put PROCESSED_TEXT_BUCKET_NAME (processedKeyOf r)
            text with
         | .ok _ =>
           [.s3PutOk PROCESSED_TEXT_BUCKET_NAME (processedKeyOf r) text]
         | .error m =>
           [.s3PutFail PROCESSED_TEXT_BUCKET_NAME (processedKeyOf r) text m,
            .dynamoPut (book_idOf r.key)
              (failRowOf env r (.otherError m))]) := by
    rw [itemEvents, processRecordTrace, hdl]
    dsimp only
    rw [han]
    dsimp only
    rw [processedKeyOf]
    cases hs : env.s3Put PROCESSED_TEXT_BUCKET_NAME
        ("processed_texts/" ++ book_idOf r.key ++ ".txt") text with
    | ok u => rfl
    | error m => rfl
  refine ⟨hev, ?_⟩
  intro m hm st
  rw [hev, hm]
  dsimp only
  constructor
  · rw [applyEvents_table]
    simp [lastRowFor, rowStep]
  · rw [applyEvents_bucket]
    have hput : lastPutFor (processedKeyOf r)
        [.dynamoPut (book_idOf r.key) (metaRowOf env r fields),
         .s3PutFail PROCESSED_TEXT_BUCKET_NAME (processedKeyOf r) text m,
         .dynamoPut (book_idOf r.key)
           (failRowOf env r (.otherError m))] = none := by
      rfl
    rw [hput]
    rfl

/-- Witness for C6 (amended): with the failing-put backend the
fully-extracted pdf book leaves the trace metadata-put first and ends
FAILED with an untouched bucket. -/
theorem C6_witness :
    itemEvents envB ⟨"src", "books/good.pdf"⟩ =
      [.dynamoPut "good"
        (metaRowOf envB ⟨"src", "books/good.pdf"⟩ []),
       .s3PutFail "" "processed_texts/good.txt" "Hello World" "AccessDenied",
       .dynamoPut "good"
        (failRowOf envB ⟨"src", "books/good.pdf"⟩
          (.otherError "AccessDenied"))] ∧
    (applyEvents SysState.empty
      (itemEvents envB ⟨"src", "books/good.pdf"⟩)).table "good" =
      some (failRowOf envB ⟨"src", "books/good.pdf"⟩
        (.otherError "AccessDenied")) := by
  have h := C6_metadata_before_text envB ⟨"src", "books/good.pdf"⟩
    "Hello World" [] rfl rfl
  have h2 := (h.2 "AccessDenied" rfl SysState.empty).1
  exact ⟨h.1, h2⟩

/-- C7: a DynamoDB put for an itemId unconditionally replaces whatever
row was there — the result is independent of the prior store and holds
exactly one row per id — so processing the same itemId twice leaves
exactly the row of the second attempt, which carries no trace (no
errorMessage field) of an earlier failure. -/
theorem C7_status_overwrite (env : Env) (st st2 : SysState)
    (r r1 r2 : EventRecord)
    (hbid : book_idOf r1.key = book_idOf r2.key) :
    ((applyEvents st (itemEvents env r)).table (book_idOf r.key) =
      (applyEvents st2 (itemEvents env r)).table (book_idOf r.key)) ∧
    (∃ row, (applyEvents st (itemEvents env r)).table (book_idOf r.key) =
      some row) ∧
    ((lambda_handler env st [r1, r2]).1.table (book_idOf r2.key) =
      (lambda_handler env st2 [r2]).1.table (book_idOf r2.key)) ∧
    (∀ q fields, (metaRowOf env q fields).lookup "errorMessage" = none) := by
  obtain ⟨row, hrow⟩ := itemRow_isSome env r
  obtain ⟨row2, hrow2⟩ := itemRow_isSome env r2
  refine ⟨?_, ⟨row, ?_⟩, ?_, fun q fields => rfl⟩
  · rw [applyEvents_table, applyEvents_table, hrow]
    rfl
  · rw [applyEvents_table, hrow]
    rfl
  · rw [lambda_handler_eq, lambda_handler_eq, applyEvents_table,
      applyEvents_table]
    have hflat : ([r1, r2].flatMap (itemEvents env)) =
        itemEvents env r1 ++ (itemEvents env r2 ++ []) := by
      rw [List.flatMap_cons, List.flatMap_cons, List.flatMap_nil]
    have hflat2 : ([r2].flatMap (itemEvents env)) =
        itemEvents env r2 ++ [] := by
      rw [List.flatMap_cons, List.flatMap_nil]
    rw [hflat, hflat2, List.append_nil, lastRowFor_append, hrow2]
    rfl

/-- Witness for C7: the same book uploaded under two prefixes — first a
corrupt copy, then a good one — ends with the single PROCESSED row of
the second attempt, independent of the prior store. -/
theorem C7_witness :
    (lambda_handler envA SysState.empty
      [⟨"srcA", "a/book.pdf"⟩, ⟨"srcB", "b/book.pdf"⟩]).1.table "book" =
      (lambda_handler envA
        ⟨fun _ => some [("stale", .jnull)], fun _ => some "stale"⟩
        [⟨"srcB", "b/book.pdf"⟩]).1.table "book" ∧
    (metaRowOf envA ⟨"srcB", "b/book.pdf"⟩ []).lookup "errorMessage" =
      none := by
  have h := C7_status_overwrite envA SysState.empty
    ⟨fun _ => some [("stale", .jnull)], fun _ => some "stale"⟩
    ⟨"srcA", "a/book.pdf"⟩ ⟨"srcA", "a/book.pdf"⟩ ⟨"srcB", "b/book.pdf"⟩
    (by decide)
  exact ⟨h.2.2.1, h.2.2.2 ⟨"srcB", "b/book.pdf"⟩ []⟩

end ProcessNewBook
